import Mathlib

/-!
Verification of the ReAct agent engine of `src/agent.ts` (claude-model-benchmark).

The development shallowly embeds the response parser (`parseAgentResponse`) and
the agent orchestrator (`runAgent`) from the source. JavaScript strings are
modelled by Lean `String` with character-level helpers (`jsTrim`, `jsDrop`,
`splitLines`, `jsStartsWith`) that mirror JS `trim`, `slice`, `split("\n")` and
`startsWith` on ASCII input; `string | undefined` fields subject to the JS
falsiness coercion `s || undefined` are modelled by `Option String` through
`orNone`; a JS function that may throw is modelled as returning
`Except String a`, the error carrying the thrown message.
-/

namespace AgentEngine

/-- JS `s.startsWith(p)`, character-level. -/
def jsStartsWith (s p : String) : Bool := p.data.isPrefixOf s.data

/-- Drop leading whitespace characters. -/
def dropLeadingWs : List Char → List Char
  | [] => []
  | c :: cs => if c.isWhitespace then dropLeadingWs cs else c :: cs

/-- JS `s.trim()`: strip whitespace from both ends. -/
def jsTrim (s : String) : String :=
  String.mk ((dropLeadingWs ((dropLeadingWs s.data).reverse)).reverse)

/-- JS `s.slice(n)` for a nonnegative index: drop the first `n` characters. -/
def jsDrop (s : String) (n : Nat) : String := String.mk (s.data.drop n)

/-- JS `text.split("\n")`. -/
def splitLinesAux : List Char → List Char → List String
  | [], acc => [String.mk acc.reverse]
  | c :: cs, acc =>
    if c = '\n' then String.mk acc.reverse :: splitLinesAux cs []
    else splitLinesAux cs (c :: acc)

/-- JS `text.split("\n")` on the whole text. -/
def splitLines (s : String) : List String := splitLinesAux s.data []

/-- Character index of the first occurrence of `pat` in the text, scanning
left to right; `none` when absent (JS `indexOf` returning `-1`). -/
def findSubIdx : List Char → List Char → Nat → Option Nat
  | [], pat, i => if pat.isEmpty then some i else none
  | c :: cs, pat, i =>
    if pat.isPrefixOf (c :: cs) then some i else findSubIdx cs pat (i + 1)

/-- JS coercion `s || undefined`: the empty string is falsy. -/
def orNone (s : String) : Option String := if s = "" then none else some s

/-- Output record of the response parser (`agent.ts` lines 72-77). -/
structure ParsedResponse where
  thought : String
  action : Option String
  actionInput : Option String
  finalAnswer : Option String
deriving Repr, DecidableEq

/-- The capture terminator of the `Action Input` block (`agent.ts` lines 95-96):
a line whose trimmed form begins with one of the four markers. -/
def isCaptureBreak (nt : String) : Bool :=
  jsStartsWith nt "Thought:" || jsStartsWith nt "Action:" ||
    jsStartsWith nt "Final Answer:" || jsStartsWith nt "Observation:"

/-- `agent.ts` lines 101-102: `text.slice(text.indexOf("Final Answer:") + 13).trim()`,
computed on the raw untrimmed text. An `indexOf` miss gives `-1`, hence `slice(12)`. -/
def finalAnswerFrom (text : String) : String :=
  match findSubIdx text.data "Final Answer:".data 0 with
  | some idx => jsTrim (jsDrop text (idx + 13))
  | none => jsTrim (jsDrop text 12)

/-- The scanning loop of `parseAgentResponse` (`agent.ts` lines 84-105), with
the four accumulators `thought`, `action`, `actionInput`, `finalAnswer`.
The `Action Input` branch looks ahead without advancing the scan position,
exactly as the inner `j` loop of the source leaves `i` untouched. -/
def parseLoop (text : String) :
    List String → String → String → String → String × String × String × String
  | [], th, ac, ai => (th, ac, ai, "")
  | l :: rest, th, ac, ai =>
    if jsStartsWith (jsTrim l) "Thought:" then
      parseLoop text rest (jsTrim (jsDrop (jsTrim l) 8)) ac ai
    else if jsStartsWith (jsTrim l) "Action:" && !jsStartsWith (jsTrim l) "Action Input:" then
      parseLoop text rest th (jsTrim (jsDrop (jsTrim l) 7)) ai
    else if jsStartsWith (jsTrim l) "Action Input:" then
      parseLoop text rest th ac
        (jsTrim (String.intercalate "\n"
          (jsTrim (jsDrop (jsTrim l) 13) :: rest.takeWhile (fun s => !isCaptureBreak (jsTrim s)))))
    else if jsStartsWith (jsTrim l) "Final Answer:" then
      (th, ac, ai, finalAnswerFrom text)
    else
      parseLoop text rest th ac ai

/-- `parseAgentResponse` (`agent.ts` lines 72-113): split on newlines, scan,
then coerce empty `action`/`actionInput`/`finalAnswer` to absence
(`action || undefined` and friends, lines 107-112). -/
def parseAgentResponse (text : String) : ParsedResponse :=
  let r := parseLoop text (splitLines text) "" "" ""
  { thought := r.1, action := orNone r.2.1,
    actionInput := orNone r.2.2.1, finalAnswer := orNone r.2.2.2 }

/-- A line that triggers the `Final Answer` branch. -/
def isFALine (l : String) : Bool := jsStartsWith (jsTrim l) "Final Answer:"

/-- A line that triggers the `Action` branch (`agent.ts` line 88). -/
def isActionLine (l : String) : Bool :=
  jsStartsWith (jsTrim l) "Action:" && !jsStartsWith (jsTrim l) "Action Input:"

/-- The action name extracted from an `Action:` line (`agent.ts` line 89). -/
def actionName (l : String) : String := jsTrim (jsDrop (jsTrim l) 7)

/-- The block captured by an `Action Input:` line `l` followed by lines `rest`
(`agent.ts` lines 90-99): the remainder of the line, then subsequent lines
verbatim until a marker line, joined and trimmed. -/
def captureBlock (l : String) (rest : List String) : String :=
  jsTrim (String.intercalate "\n"
    (jsTrim (jsDrop (jsTrim l) 13) :: rest.takeWhile (fun s => !isCaptureBreak (jsTrim s))))

/-- Message roles (`MultiTurnMessage` in `providers.ts`). -/
inductive Role
  | user
  | assistant
deriving Repr, DecidableEq

/-- One transcript message (`agent.ts` uses `MultiTurnMessage`). -/
structure Message where
  role : Role
  content : String
deriving Repr, DecidableEq

/-- `AgentTool` (`agent.ts` lines 20-24); a throwing `execute` is an `Except.error`
carrying the thrown message. -/
structure AgentTool where
  name : String
  description : String
  execute : String → Except String String

/-- `AgentStep` (`agent.ts` lines 26-31). -/
structure AgentStep where
  thought : String
  action : String
  actionInput : String
  observation : String
deriving Repr, DecidableEq

/-- `AgentResult` (`agent.ts` lines 33-38). -/
structure AgentResult where
  steps : List AgentStep
  finalAnswer : String
  totalSteps : Nat
  provider : String
deriving Repr, DecidableEq

/-- `buildAgentSystemPrompt` (`agent.ts` lines 42-68). -/
def buildAgentSystemPrompt (tools : List AgentTool) : String :=
  let toolDescriptions :=
    String.intercalate "\n" (tools.map (fun t => "  " ++ t.name ++ ": " ++ t.description))
  "You are a benchmark analysis agent. You investigate, test, and analyze AI models.\n\nAvailable tools:\n"
    ++ toolDescriptions
    ++ "\n\nFormat (exactly):\n\nThought: <your reasoning>\nAction: <tool_name>\nAction Input: <input for the tool>\n\nWhen done:\n\nThought: <final reasoning>\nFinal Answer: <your comprehensive answer>\n\nRules:\n- One tool per response\n- Be thorough: test multiple models, compare, compute statistics\n- Final Answer should have clear recommendations\n- Do NOT combine Action and Final Answer"

/-- The observation for an unresolvable action name (`agent.ts` line 167). -/
def unknownToolMsg (a : String) (tools : List AgentTool) : String :=
  "Unknown tool: " ++ a ++ ". Available: " ++ String.intercalate ", " (tools.map (·.name))

/-- Observation computation of one dispatch (`agent.ts` lines 160-171): find the
tool by name; on success the returned text, on a throw a `Tool error:` string,
on a missing tool the `Unknown tool:` string. -/
def runTool (tools : List AgentTool) (a input : String) : String :=
  match tools.find? (fun t => t.name == a) with
  | some t =>
    match t.execute input with
    | Except.ok s => s
    | Except.error e => "Tool error: " ++ e
  | none => unknownToolMsg a tools

/-- JS `[...new Set(xs)]`: deduplicate keeping the first occurrence, in order. -/
def dedupFirst : List String → List String
  | [] => []
  | a :: as => a :: dedupFirst (as.filter (fun b => !(b == a)))
termination_by l => l.length
decreasing_by
  simp only [List.length_cons]
  exact Nat.lt_succ_of_le (List.length_filter_le _ _)

/-- The budget-exhaustion answer (`agent.ts` lines 188-190). -/
def fallbackAnswer (steps : List AgentStep) : String :=
  if steps.length > 0 then
    "Agent completed " ++ toString steps.length ++ " steps. Tools used: "
      ++ String.intercalate ", " (dedupFirst (steps.map (·.action))) ++ "."
  else
    "Agent reached maximum steps without executing tools."

/-- Outcome of one iteration of the `runAgent` loop: terminate with a result
(final transcript recorded), continue with updated state, or propagate a
provider failure. -/
inductive StepOutcome
  | done (finalMessages : List Message) (result : AgentResult)
  | next (i : Nat) (steps : List AgentStep) (messages : List Message)
  | fail (e : String)
deriving Repr, DecidableEq

/-- One iteration of the `runAgent` loop (`agent.ts` lines 142-184): call the
provider on the transcript, append the assistant reply, parse it; a parsed
final answer terminates with `totalSteps = i + 1`; otherwise a parsed action
dispatches one tool, records one `AgentStep` and appends the observation
message; otherwise the corrective nudge is appended. -/
def agentIteration (tools : List AgentTool) (provider : List Message → Except String String)
    (providerLabel : String) (i : Nat) (steps : List AgentStep) (messages : List Message) :
    StepOutcome :=
  match provider messages with
  | Except.error e => StepOutcome.fail e
  | Except.ok text =>
    let messages1 := messages ++ [⟨Role.assistant, text⟩]
    let parsed := parseAgentResponse text
    match parsed.finalAnswer with
    | some fa => StepOutcome.done messages1 ⟨steps, fa, i + 1, providerLabel⟩
    | none =>
      match parsed.action with
      | some a =>
        let observation := runTool tools a (parsed.actionInput.getD "")
        StepOutcome.next (i + 1)
          (steps ++ [⟨parsed.thought, a, parsed.actionInput.getD "", observation⟩])
          (messages1 ++ [⟨Role.user, "Observation: " ++ observation ++ "\n\nContinue."⟩])
      | none =>
        StepOutcome.next (i + 1) steps
          (messages1 ++ [⟨Role.user, "Use a tool or provide Final Answer."⟩])

/-- The `for` loop of `runAgent` (`agent.ts` lines 142-194) with the remaining
iteration count as fuel; exhausted fuel produces the fallback result with
`totalSteps = maxSteps` (lines 186-193). -/
def agentLoop (tools : List AgentTool) (provider : List Message → Except String String)
    (providerLabel : String) (maxSteps : Nat) :
    Nat → Nat → List AgentStep → List Message → Except String AgentResult
  | 0, _, steps, _ => Except.ok ⟨steps, fallbackAnswer steps, maxSteps, providerLabel⟩
  | fuel + 1, i, steps, messages =>
    match agentIteration tools provider providerLabel i steps messages with
    | StepOutcome.fail e => Except.error e
    | StepOutcome.done _ r => Except.ok r
    | StepOutcome.next i' steps' messages' =>
      agentLoop tools provider providerLabel maxSteps fuel i' steps' messages'

/-- The configuration-failure message (`agent.ts` line 128). -/
def configErrorMsg : String :=
  "No LLM provider configured. Set ANTHROPIC_API_KEY, OPENAI_API_KEY, or GEMINI_API_KEY."

/-- `runAgent` (`agent.ts` lines 117-194). `availableProviders` stands for
`getAvailableProviders()` (environment-dependent); `completion` stands for
`callProviderMultiTurn` partially applied to the fixed provider key, model and
credential, taking the system prompt and the transcript; a throwing call is an
`Except.error`. With no available provider the run is refused up front
(lines 126-129); otherwise the transcript is seeded with the goal message
(lines 137-140) and the loop starts with an empty step trace. -/
def runAgent (availableProviders : List String)
    (completion : String → List Message → Except String String)
    (providerLabel : String) (goal : String) (tools : List AgentTool)
    (context : Option String) (maxSteps : Nat) : Except String AgentResult :=
  if availableProviders.length = 0 then Except.error configErrorMsg
  else
    let systemPrompt := buildAgentSystemPrompt tools
    let contextBlock :=
      match context with
      | some c => if c = "" then "" else "\n\nContext:\n" ++ c
      | none => ""
    let messages : List Message := [⟨Role.user, "Goal: " ++ goal ++ contextBlock ++ "\n\nBegin."⟩]
    agentLoop tools (completion systemPrompt) providerLabel maxSteps maxSteps 0 [] messages

/-- Fixture: a tool echoing its input, for concrete instantiations. -/
def echoTool : AgentTool := ⟨"echo", "echoes its input", fun s => Except.ok ("echo: " ++ s)⟩

/-- Fixture: a tool whose execute always throws. -/
def boomTool : AgentTool := ⟨"boom", "always fails", fun _ => Except.error "kaboom"⟩

/-- Fixture: a stub of the list_available_models tool. -/
def listModelsTool : AgentTool :=
  ⟨"list_available_models", "List all models and provider status with pricing. No input required.",
    fun _ => Except.ok "\x7b\x7d"⟩

/-- Fixture: a tool named a. -/
def aTool : AgentTool := ⟨"a", "tool a", fun _ => Except.ok "ran a"⟩

/-- Fixture: a tool named b. -/
def bTool : AgentTool := ⟨"b", "tool b", fun _ => Except.ok "ran b"⟩

theorem jsStartsWith_ne_head (t p q : String) (cp cq : Char) (ps qs : List Char)
    (hp : p.data = cp :: ps) (hq : q.data = cq :: qs) (hne : cp ≠ cq)
    (h : jsStartsWith t p = true) : jsStartsWith t q = false := by
  unfold jsStartsWith at h ⊢
  rw [hp] at h
  rw [hq]
  cases ht : t.data with
  | nil => rw [ht] at h; simp [List.isPrefixOf] at h
  | cons a as =>
    rw [ht] at h
    simp only [List.isPrefixOf, Bool.and_eq_true, beq_iff_eq] at h
    have hcqa : (cq == a) = false := by
      refine beq_eq_false_iff_ne.mpr ?_
      intro e
      exact hne (h.1.trans e.symm)
    simp [List.isPrefixOf, hcqa]

theorem fa_not_thought {t : String} (h : jsStartsWith t "Final Answer:" = true) :
    jsStartsWith t "Thought:" = false :=
  jsStartsWith_ne_head t _ _ 'F' 'T' "inal Answer:".data "hought:".data
    (by decide) (by decide) (by decide) h

theorem fa_not_action {t : String} (h : jsStartsWith t "Final Answer:" = true) :
    jsStartsWith t "Action:" = false :=
  jsStartsWith_ne_head t _ _ 'F' 'A' "inal Answer:".data "ction:".data
    (by decide) (by decide) (by decide) h

theorem fa_not_actionInput {t : String} (h : jsStartsWith t "Final Answer:" = true) :
    jsStartsWith t "Action Input:" = false :=
  jsStartsWith_ne_head t _ _ 'F' 'A' "inal Answer:".data "ction Input:".data
    (by decide) (by decide) (by decide) h

theorem action_not_thought {t : String} (h : jsStartsWith t "Action:" = true) :
    jsStartsWith t "Thought:" = false :=
  jsStartsWith_ne_head t _ _ 'A' 'T' "ction:".data "hought:".data
    (by decide) (by decide) (by decide) h

theorem actionInput_not_thought {t : String} (h : jsStartsWith t "Action Input:" = true) :
    jsStartsWith t "Thought:" = false :=
  jsStartsWith_ne_head t _ _ 'A' 'T' "ction Input:".data "hought:".data
    (by decide) (by decide) (by decide) h

theorem parseLoop_fa_cases (text : String) :
    ∀ lines th ac ai, (parseLoop text lines th ac ai).2.2.2 = "" ∨
      (parseLoop text lines th ac ai).2.2.2 = finalAnswerFrom text := by
  intro lines
  induction lines with
  | nil => intro th ac ai; left; rfl
  | cons l rest ih =>
    intro th ac ai
    simp only [parseLoop]
    cases h1 : jsStartsWith (jsTrim l) "Thought:" with
    | true => simp only [h1, if_true]; exact ih _ _ _
    | false =>
    cases h2 : (jsStartsWith (jsTrim l) "Action:" && !jsStartsWith (jsTrim l) "Action Input:") with
    | true => simp only [h1, h2, Bool.false_eq_true, if_false, if_true]; exact ih _ _ _
    | false =>
    cases h3 : jsStartsWith (jsTrim l) "Action Input:" with
    | true => simp only [h1, h2, h3, Bool.false_eq_true, if_false, if_true]; exact ih _ _ _
    | false =>
    cases h4 : jsStartsWith (jsTrim l) "Final Answer:" with
    | true => simp only [h1, h2, h3, h4, Bool.false_eq_true, if_false, if_true]; exact Or.inr trivial
    | false => simp only [h1, h2, h3, h4, Bool.false_eq_true, if_false]; exact ih _ _ _

theorem parseLoop_fa_of_mem (text : String) :
    ∀ lines th ac ai, (∃ l ∈ lines, isFALine l = true) →
      (parseLoop text lines th ac ai).2.2.2 = finalAnswerFrom text := by
  intro lines
  induction lines with
  | nil => intro th ac ai h; obtain ⟨w, hw, _⟩ := h; exact absurd hw (List.not_mem_nil w)
  | cons l rest ih =>
    intro th ac ai h
    obtain ⟨w, hw, hfa⟩ := h
    simp only [parseLoop]
    rcases List.mem_cons.mp hw with hwl | hwr
    · subst hwl
      unfold isFALine at hfa
      have h1 := fa_not_thought hfa
      have ha := fa_not_action hfa
      have h3 := fa_not_actionInput hfa
      simp only [h1, ha, h3, hfa, Bool.false_and, Bool.false_eq_true, if_false, if_true]
    · cases h1 : jsStartsWith (jsTrim l) "Thought:" with
      | true => simp only [h1, if_true]; exact ih _ _ _ ⟨w, hwr, hfa⟩
      | false =>
      cases h2 : (jsStartsWith (jsTrim l) "Action:" && !jsStartsWith (jsTrim l) "Action Input:") with
      | true =>
        simp only [h1, h2, Bool.false_eq_true, if_false, if_true]
        exact ih _ _ _ ⟨w, hwr, hfa⟩
      | false =>
      cases h3 : jsStartsWith (jsTrim l) "Action Input:" with
      | true =>
        simp only [h1, h2, h3, Bool.false_eq_true, if_false, if_true]
        exact ih _ _ _ ⟨w, hwr, hfa⟩
      | false =>
      cases h4 : jsStartsWith (jsTrim l) "Final Answer:" with
      | true => simp only [h1, h2, h3, h4, Bool.false_eq_true, if_false, if_true]
      | false =>
        simp only [h1, h2, h3, h4, Bool.false_eq_true, if_false]
        exact ih _ _ _ ⟨w, hwr, hfa⟩

theorem parseLoop_fa_of_none (text : String) :
    ∀ lines th ac ai, (∀ l ∈ lines, isFALine l = false) →
      (parseLoop text lines th ac ai).2.2.2 = "" := by
  intro lines
  induction lines with
  | nil => intro th ac ai _; rfl
  | cons l rest ih =>
    intro th ac ai h
    have h4 : jsStartsWith (jsTrim l) "Final Answer:" = false := h l (List.mem_cons_self l rest)
    have hrest : ∀ x ∈ rest, isFALine x = false := fun x hx => h x (List.mem_cons_of_mem l hx)
    simp only [parseLoop]
    cases h1 : jsStartsWith (jsTrim l) "Thought:" with
    | true => simp only [h1, if_true]; exact ih _ _ _ hrest
    | false =>
    cases h2 : (jsStartsWith (jsTrim l) "Action:" && !jsStartsWith (jsTrim l) "Action Input:") with
    | true => simp only [h1, h2, Bool.false_eq_true, if_false, if_true]; exact ih _ _ _ hrest
    | false =>
    cases h3 : jsStartsWith (jsTrim l) "Action Input:" with
    | true => simp only [h1, h2, h3, Bool.false_eq_true, if_false, if_true]; exact ih _ _ _ hrest
    | false =>
      simp only [h1, h2, h3, h4, Bool.false_eq_true, if_false]
      exact ih _ _ _ hrest

theorem parseLoop_ai_preserved (text : String) :
    ∀ lines th ac ai, (∀ l ∈ lines, jsStartsWith (jsTrim l) "Action Input:" = false) →
      (parseLoop text lines th ac ai).2.2.1 = ai := by
  intro lines
  induction lines with
  | nil => intro th ac ai _; rfl
  | cons l rest ih =>
    intro th ac ai h
    have h3 : jsStartsWith (jsTrim l) "Action Input:" = false := h l (List.mem_cons_self l rest)
    have hrest : ∀ x ∈ rest, jsStartsWith (jsTrim x) "Action Input:" = false :=
      fun x hx => h x (List.mem_cons_of_mem l hx)
    simp only [parseLoop]
    cases h1 : jsStartsWith (jsTrim l) "Thought:" with
    | true => simp only [h1, if_true]; exact ih _ _ _ hrest
    | false =>
    cases h2 : (jsStartsWith (jsTrim l) "Action:" && !jsStartsWith (jsTrim l) "Action Input:") with
    | true => simp only [h1, h2, Bool.false_eq_true, if_false, if_true]; exact ih _ _ _ hrest
    | false =>
    cases h4 : jsStartsWith (jsTrim l) "Final Answer:" with
    | true => simp only [h1, h2, h3, h4, Bool.false_eq_true, if_false, if_true]
    | false =>
      simp only [h1, h2, h3, h4, Bool.false_eq_true, if_false]
      exact ih _ _ _ hrest

theorem parseLoop_append (text : String) :
    ∀ pre r2 th ac ai, (∀ l ∈ pre, isFALine l = false) →
      ∃ th2 ac2 ai2, parseLoop text (pre ++ r2) th ac ai = parseLoop text r2 th2 ac2 ai2 := by
  intro pre
  induction pre with
  | nil => intro r2 th ac ai _; exact ⟨th, ac, ai, rfl⟩
  | cons l pre ih =>
    intro r2 th ac ai h
    have h4 : jsStartsWith (jsTrim l) "Final Answer:" = false := h l (List.mem_cons_self l pre)
    have hrest : ∀ x ∈ pre, isFALine x = false := fun x hx => h x (List.mem_cons_of_mem l hx)
    rw [List.cons_append]
    simp only [parseLoop]
    cases h1 : jsStartsWith (jsTrim l) "Thought:" with
    | true => simp only [h1, if_true]; exact ih _ _ _ _ hrest
    | false =>
    cases h2 : (jsStartsWith (jsTrim l) "Action:" && !jsStartsWith (jsTrim l) "Action Input:") with
    | true => simp only [h1, h2, Bool.false_eq_true, if_false, if_true]; exact ih _ _ _ _ hrest
    | false =>
    cases h3 : jsStartsWith (jsTrim l) "Action Input:" with
    | true => simp only [h1, h2, h3, Bool.false_eq_true, if_false, if_true]; exact ih _ _ _ _ hrest
    | false =>
      simp only [h1, h2, h3, h4, Bool.false_eq_true, if_false]
      exact ih _ _ _ _ hrest

theorem parseLoop_action_of_none (text : String) :
    ∀ lines th ac ai, (∀ l ∈ lines, isFALine l = false) →
      lines.filter isActionLine = [] →
      (parseLoop text lines th ac ai).2.1 = ac := by
  intro lines
  induction lines with
  | nil => intro th ac ai _ _; rfl
  | cons l rest ih =>
    intro th ac ai h hf
    have h4 : jsStartsWith (jsTrim l) "Final Answer:" = false := h l (List.mem_cons_self l rest)
    have hrest : ∀ x ∈ rest, isFALine x = false := fun x hx => h x (List.mem_cons_of_mem l hx)
    have hl : isActionLine l = false := by
      cases hal : isActionLine l with
      | false => rfl
      | true => rw [List.filter_cons_of_pos hal] at hf; exact absurd hf (List.cons_ne_nil _ _)
    have hfr : rest.filter isActionLine = [] := by
      rwa [List.filter_cons_of_neg (by simp [hl])] at hf
    have h2 : (jsStartsWith (jsTrim l) "Action:" && !jsStartsWith (jsTrim l) "Action Input:") = false := hl
    simp only [parseLoop]
    cases h1 : jsStartsWith (jsTrim l) "Thought:" with
    | true => simp only [h1, if_true]; exact ih _ _ _ hrest hfr
    | false =>
    simp only [h1, Bool.false_eq_true, if_false]
    simp only [h2, Bool.false_eq_true, if_false]
    cases h3 : jsStartsWith (jsTrim l) "Action Input:" with
    | true => simp only [h3, if_true]; exact ih _ _ _ hrest hfr
    | false =>
      simp only [h3, Bool.false_eq_true, if_false]
      simp only [h4, Bool.false_eq_true, if_false]
      exact ih _ _ _ hrest hfr

theorem parseLoop_action_getLast (text : String) :
    ∀ lines th ac ai la, (∀ l ∈ lines, isFALine l = false) →
      (lines.filter isActionLine).getLast? = some la →
      (parseLoop text lines th ac ai).2.1 = actionName la := by
  intro lines
  induction lines with
  | nil => intro th ac ai la _ hla; simp at hla
  | cons l rest ih =>
    intro th ac ai la h hla
    have h4 : jsStartsWith (jsTrim l) "Final Answer:" = false := h l (List.mem_cons_self l rest)
    have hrest : ∀ x ∈ rest, isFALine x = false := fun x hx => h x (List.mem_cons_of_mem l hx)
    simp only [parseLoop]
    cases hal : isActionLine l with
    | true =>
      rw [List.filter_cons_of_pos hal] at hla
      have haStarts : jsStartsWith (jsTrim l) "Action:" = true := by
        have hc := hal
        unfold isActionLine at hc
        simp only [Bool.and_eq_true] at hc
        exact hc.1
      have h1 : jsStartsWith (jsTrim l) "Thought:" = false := action_not_thought haStarts
      have h2 : (jsStartsWith (jsTrim l) "Action:" && !jsStartsWith (jsTrim l) "Action Input:") = true := hal
      simp only [h1, Bool.false_eq_true, if_false]
      simp only [h2, if_true]
      cases hfr : rest.filter isActionLine with
      | nil =>
        rw [hfr, List.getLast?_singleton] at hla
        have h5 : l = la := Option.some_inj.mp hla
        subst h5
        exact parseLoop_action_of_none text rest th (actionName l) ai hrest hfr
      | cons b bs =>
        rw [hfr, List.getLast?_cons_cons] at hla
        exact ih _ _ _ _ hrest (by rw [hfr]; exact hla)
    | false =>
      rw [List.filter_cons_of_neg (by simp [hal])] at hla
      have h2 : (jsStartsWith (jsTrim l) "Action:" && !jsStartsWith (jsTrim l) "Action Input:") = false := hal
      cases h1 : jsStartsWith (jsTrim l) "Thought:" with
      | true => simp only [h1, if_true]; exact ih _ _ _ _ hrest hla
      | false =>
      simp only [h1, Bool.false_eq_true, if_false]
      simp only [h2, Bool.false_eq_true, if_false]
      cases h3 : jsStartsWith (jsTrim l) "Action Input:" with
      | true => simp only [h3, if_true]; exact ih _ _ _ _ hrest hla
      | false =>
        simp only [h3, Bool.false_eq_true, if_false]
        simp only [h4, Bool.false_eq_true, if_false]
        exact ih _ _ _ _ hrest hla

theorem agentIteration_final (tools : List AgentTool)
    (provider : List Message → Except String String) (label : String)
    (i : Nat) (steps : List AgentStep) (messages : List Message) (text v : String)
    (hp : provider messages = Except.ok text)
    (hv : (parseAgentResponse text).finalAnswer = some v) :
    agentIteration tools provider label i steps messages =
      StepOutcome.done (messages ++ [⟨Role.assistant, text⟩]) ⟨steps, v, i + 1, label⟩ := by
  unfold agentIteration
  rw [hp]
  simp only [hv]

theorem agentIteration_action (tools : List AgentTool)
    (provider : List Message → Except String String) (label : String)
    (i : Nat) (steps : List AgentStep) (messages : List Message) (text a : String)
    (hp : provider messages = Except.ok text)
    (hfa : (parseAgentResponse text).finalAnswer = none)
    (ha : (parseAgentResponse text).action = some a) :
    agentIteration tools provider label i steps messages =
      StepOutcome.next (i + 1)
        (steps ++ [⟨(parseAgentResponse text).thought, a,
            (parseAgentResponse text).actionInput.getD "",
            runTool tools a ((parseAgentResponse text).actionInput.getD "")⟩])
        (messages ++ [⟨Role.assistant, text⟩,
            ⟨Role.user, "Observation: "
              ++ runTool tools a ((parseAgentResponse text).actionInput.getD "")
              ++ "\n\nContinue."⟩]) := by
  unfold agentIteration
  rw [hp]
  simp only [hfa, ha, List.append_assoc, List.cons_append, List.nil_append]

theorem agentIteration_nudge (tools : List AgentTool)
    (provider : List Message → Except String String) (label : String)
    (i : Nat) (steps : List AgentStep) (messages : List Message) (text : String)
    (hp : provider messages = Except.ok text)
    (hfa : (parseAgentResponse text).finalAnswer = none)
    (ha : (parseAgentResponse text).action = none) :
    agentIteration tools provider label i steps messages =
      StepOutcome.next (i + 1) steps
        (messages ++ [⟨Role.assistant, text⟩,
            ⟨Role.user, "Use a tool or provide Final Answer."⟩]) := by
  unfold agentIteration
  rw [hp]
  simp only [hfa, ha, List.append_assoc, List.cons_append, List.nil_append]

theorem agentLoop_safe (tools : List AgentTool)
    (provider : List Message → Except String String) (label : String) (maxSteps : Nat)
    (hp : ∀ m, ∃ s, provider m = Except.ok s) :
    ∀ fuel i steps messages, i + fuel = maxSteps →
      ∃ r, agentLoop tools provider label maxSteps fuel i steps messages = Except.ok r ∧
        r.totalSteps ≤ maxSteps := by
  intro fuel
  induction fuel with
  | zero => intro i steps messages _; exact ⟨_, rfl, le_refl _⟩
  | succ n ih =>
    intro i steps messages hstep
    obtain ⟨text, htext⟩ := hp messages
    cases hfa : (parseAgentResponse text).finalAnswer with
    | some fa =>
      refine ⟨⟨steps, fa, i + 1, label⟩, ?_, show i + 1 ≤ maxSteps by omega⟩
      simp only [agentLoop, agentIteration_final tools provider label i steps messages text fa htext hfa]
    | none =>
      cases ha : (parseAgentResponse text).action with
      | some a =>
        obtain ⟨r, hr, hb⟩ := ih (i + 1) _ _ (by omega)
        refine ⟨r, ?_, hb⟩
        simp only [agentLoop,
          agentIteration_action tools provider label i steps messages text a htext hfa ha]
        exact hr
      | none =>
        obtain ⟨r, hr, hb⟩ := ih (i + 1) _ _ (by omega)
        refine ⟨r, ?_, hb⟩
        simp only [agentLoop,
          agentIteration_nudge tools provider label i steps messages text htext hfa ha]
        exact hr

theorem agentLoop_exhaust (tools : List AgentTool)
    (provider : List Message → Except String String) (label : String) (maxSteps : Nat)
    (hp : ∀ m, ∃ text, provider m = Except.ok text ∧ (parseAgentResponse text).finalAnswer = none) :
    ∀ fuel i steps messages, ∃ steps2,
      agentLoop tools provider label maxSteps fuel i steps messages =
        Except.ok ⟨steps2, fallbackAnswer steps2, maxSteps, label⟩ := by
  intro fuel
  induction fuel with
  | zero => intro i steps messages; exact ⟨steps, rfl⟩
  | succ n ih =>
    intro i steps messages
    obtain ⟨text, htext, hfa⟩ := hp messages
    cases ha : (parseAgentResponse text).action with
    | some a =>
      obtain ⟨steps2, hr⟩ := ih (i + 1) _ _
      refine ⟨steps2, ?_⟩
      simp only [agentLoop,
        agentIteration_action tools provider label i steps messages text a htext hfa ha]
      exact hr
    | none =>
      obtain ⟨steps2, hr⟩ := ih (i + 1) _ _
      refine ⟨steps2, ?_⟩
      simp only [agentLoop,
        agentIteration_nudge tools provider label i steps messages text htext hfa ha]
      exact hr

theorem runAgent_unfold (availableProviders : List String)
    (completion : String → List Message → Except String String)
    (label goal : String) (tools : List AgentTool) (context : Option String) (maxSteps : Nat)
    (hne : availableProviders ≠ []) :
    runAgent availableProviders completion label goal tools context maxSteps =
      agentLoop tools (completion (buildAgentSystemPrompt tools)) label maxSteps maxSteps 0 []
        [⟨Role.user, "Goal: " ++ goal
          ++ (match context with
              | some c => if c = "" then "" else "\n\nContext:\n" ++ c
              | none => "")
          ++ "\n\nBegin."⟩] := by
  unfold runAgent
  rw [if_neg (by simpa [List.length_eq_zero] using hne)]

theorem runTool_found_error (tools : List AgentTool) (a input e : String) (t : AgentTool)
    (hfind : tools.find? (fun tl => tl.name == a) = some t)
    (hexec : t.execute input = Except.error e) :
    runTool tools a input = "Tool error: " ++ e := by
  unfold runTool
  rw [hfind]
  show (match t.execute input with
    | Except.ok s => s
    | Except.error e2 => "Tool error: " ++ e2) = "Tool error: " ++ e
  rw [hexec]

theorem runTool_missing (tools : List AgentTool) (a input : String)
    (hmiss : tools.find? (fun tl => tl.name == a) = none) :
    runTool tools a input = unknownToolMsg a tools := by
  unfold runTool
  rw [hmiss]

/-- Claim C1, counterexample: the message "Action: echo\nFinal Answer:" contains an
Action marker line and a later Final Answer marker line, yet the parser yields no
final answer (the empty remainder is coerced to absence) and keeps the action, and
the orchestrator dispatches the tool instead of terminating. -/
theorem claim1_counterexample :
    isActionLine "Action: echo" = true ∧
    isFALine "Final Answer:" = true ∧
    (parseAgentResponse "Action: echo\nFinal Answer:").action = some "echo" ∧
    (parseAgentResponse "Action: echo\nFinal Answer:").finalAnswer = none ∧
    agentIteration [echoTool] (fun _ => Except.ok "Action: echo\nFinal Answer:") "L" 0 [] [] =
      StepOutcome.next 1 [⟨"", "echo", "", "echo: "⟩]
        [⟨Role.assistant, "Action: echo\nFinal Answer:"⟩,
         ⟨Role.user, "Observation: echo: \n\nContinue."⟩] :=
  ⟨by decide, by decide, by decide, by decide, rfl⟩

/-- Claim C1, amended: for every raw assistant message containing an Action marker
line and a Final Answer marker line whose remainder (everything after the first raw
occurrence of the marker, trimmed) is nonempty, the parser output is a final answer,
and the orchestrator terminates with that answer, dispatching no tool. -/
theorem claim1_amended (text : String)
    (hact : ∃ l ∈ splitLines text, isActionLine l = true)
    (hfal : ∃ l ∈ splitLines text, isFALine l = true)
    (hne : finalAnswerFrom text ≠ "")
    (tools : List AgentTool) (provider : List Message → Except String String)
    (label : String) (i : Nat) (steps : List AgentStep) (messages : List Message)
    (hp : provider messages = Except.ok text) :
    (parseAgentResponse text).finalAnswer = some (finalAnswerFrom text) ∧
    agentIteration tools provider label i steps messages =
      StepOutcome.done (messages ++ [⟨Role.assistant, text⟩])
        ⟨steps, finalAnswerFrom text, i + 1, label⟩ := by
  have hv : (parseAgentResponse text).finalAnswer = some (finalAnswerFrom text) := by
    show orNone (parseLoop text (splitLines text) "" "" "").2.2.2 = some (finalAnswerFrom text)
    rw [parseLoop_fa_of_mem text (splitLines text) "" "" "" hfal]
    unfold orNone
    rw [if_neg hne]
  exact ⟨hv, agentIteration_final tools provider label i steps messages text _ hp hv⟩

theorem claim1_amended_witness :
    (parseAgentResponse "Action: echo\nFinal Answer: done").finalAnswer =
      some (finalAnswerFrom "Action: echo\nFinal Answer: done") ∧
    agentIteration [echoTool] (fun _ => Except.ok "Action: echo\nFinal Answer: done") "L" 0 [] [] =
      StepOutcome.done [⟨Role.assistant, "Action: echo\nFinal Answer: done"⟩]
        ⟨[], finalAnswerFrom "Action: echo\nFinal Answer: done", 1, "L"⟩ :=
  claim1_amended "Action: echo\nFinal Answer: done"
    ⟨"Action: echo", by decide, by decide⟩
    ⟨"Final Answer: done", by decide, by decide⟩
    (by decide) [echoTool] _ "L" 0 [] [] rfl

/-- Claim C4, counterexample: a message whose only content is the bare marker
"Final Answer:" has the marker on a line yet the parser returns no final answer
(the empty remainder is coerced to absence); and a mid-line occurrence with a
nonempty remainder does not trigger the final-answer branch at all. -/
theorem claim4_counterexample :
    isFALine "Final Answer:" = true ∧
    (parseAgentResponse "Final Answer:").finalAnswer = none ∧
    finalAnswerFrom "see Final Answer: below\nmore" = "below\nmore" ∧
    (parseAgentResponse "see Final Answer: below\nmore").finalAnswer = none := by
  decide

/-- Claim C4, amended: for every raw assistant message in which some line begins
(after trimming) with "Final Answer:", and the text after the first raw occurrence
of the marker, trimmed, is nonempty, the parser returns a final answer equal to
that trimmed remainder; an empty remainder yields no final answer. -/
theorem claim4_amended (text : String)
    (hfal : ∃ l ∈ splitLines text, isFALine l = true)
    (hne : finalAnswerFrom text ≠ "") :
    (parseAgentResponse text).finalAnswer = some (finalAnswerFrom text) ∧
    (∀ text2, finalAnswerFrom text2 = "" → (parseAgentResponse text2).finalAnswer = none) := by
  constructor
  · show orNone (parseLoop text (splitLines text) "" "" "").2.2.2 = some (finalAnswerFrom text)
    rw [parseLoop_fa_of_mem text (splitLines text) "" "" "" hfal]
    unfold orNone
    rw [if_neg hne]
  · intro text2 hz
    show orNone (parseLoop text2 (splitLines text2) "" "" "").2.2.2 = none
    rcases parseLoop_fa_cases text2 (splitLines text2) "" "" "" with h | h
    · rw [h]; rfl
    · rw [h, hz]; rfl

theorem claim4_amended_witness :
    (parseAgentResponse "Final Answer:  hi  ").finalAnswer =
      some (finalAnswerFrom "Final Answer:  hi  ") ∧
    (∀ text2, finalAnswerFrom text2 = "" → (parseAgentResponse text2).finalAnswer = none) :=
  claim4_amended "Final Answer:  hi  "
    ⟨"Final Answer:  hi  ", by decide, by decide⟩ (by decide)

/-- Claim C10: when the text after the first "Final Answer:" occurrence is empty or
whitespace-only, the parser yields no final answer, so the orchestrator does not
terminate: it dispatches the parsed action when one is present, and otherwise
appends the corrective nudge. -/
theorem claim10 (text : String)
    (hfal : ∃ l ∈ splitLines text, isFALine l = true)
    (hempty : finalAnswerFrom text = "") :
    (parseAgentResponse text).finalAnswer = none ∧
    (∀ (tools : List AgentTool) (provider : List Message → Except String String)
        (label : String) (i : Nat) (steps : List AgentStep) (messages : List Message)
        (a : String),
      provider messages = Except.ok text →
      (parseAgentResponse text).action = some a →
      agentIteration tools provider label i steps messages =
        StepOutcome.next (i + 1)
          (steps ++ [⟨(parseAgentResponse text).thought, a,
              (parseAgentResponse text).actionInput.getD "",
              runTool tools a ((parseAgentResponse text).actionInput.getD "")⟩])
          (messages ++ [⟨Role.assistant, text⟩,
              ⟨Role.user, "Observation: "
                ++ runTool tools a ((parseAgentResponse text).actionInput.getD "")
                ++ "\n\nContinue."⟩])) ∧
    (∀ (tools : List AgentTool) (provider : List Message → Except String String)
        (label : String) (i : Nat) (steps : List AgentStep) (messages : List Message),
      provider messages = Except.ok text →
      (parseAgentResponse text).action = none →
      agentIteration tools provider label i steps messages =
        StepOutcome.next (i + 1) steps
          (messages ++ [⟨Role.assistant, text⟩,
              ⟨Role.user, "Use a tool or provide Final Answer."⟩])) := by
  have hfa : (parseAgentResponse text).finalAnswer = none := by
    show orNone (parseLoop text (splitLines text) "" "" "").2.2.2 = none
    rcases parseLoop_fa_cases text (splitLines text) "" "" "" with h | h
    · rw [h]; rfl
    · rw [h, hempty]; rfl
  refine ⟨hfa, ?_, ?_⟩
  · intro tools provider label i steps messages a hp ha
    exact agentIteration_action tools provider label i steps messages text a hp hfa ha
  · intro tools provider label i steps messages hp ha
    exact agentIteration_nudge tools provider label i steps messages text hp hfa ha

theorem claim10_witness :
    (parseAgentResponse "Action: echo\nFinal Answer:   ").finalAnswer = none ∧
    agentIteration [echoTool] (fun _ => Except.ok "Action: echo\nFinal Answer:   ") "L" 0 [] [] =
      StepOutcome.next 1 [⟨"", "echo", "", "echo: "⟩]
        [⟨Role.assistant, "Action: echo\nFinal Answer:   "⟩,
         ⟨Role.user, "Observation: echo: \n\nContinue."⟩] := by
  have h := claim10 "Action: echo\nFinal Answer:   "
    ⟨"Final Answer:   ", by decide, by decide⟩ (by decide)
  exact ⟨h.1, h.2.1 [echoTool] _ "L" 0 [] [] "echo" rfl (by decide)⟩

theorem parseLoop_actionInput_step (text l : String) (rest : List String) (th ac ai : String)
    (hl : jsStartsWith (jsTrim l) "Action Input:" = true) :
    parseLoop text (l :: rest) th ac ai = parseLoop text rest th ac (captureBlock l rest) := by
  have h1 := actionInput_not_thought hl
  simp only [parseLoop, h1, hl, Bool.not_true, Bool.and_false, Bool.false_eq_true, if_false,
    if_true]
  rfl

/-- Claim C5: an "Action Input:" line opens a capture of the remainder of the line
and all subsequent lines verbatim until a marker line or end of input; the joined
block, trimmed, becomes the parsed actionInput (the orchestrator reads it back as a
plain string, absence decoding to the empty string), and a block with zero captured
lines yields the empty string rather than an error. -/
theorem claim5 (text : String) (pre : List String) (l : String) (rest : List String)
    (hsplit : splitLines text = pre ++ l :: rest)
    (hl : jsStartsWith (jsTrim l) "Action Input:" = true)
    (hpre : ∀ p ∈ pre, isFALine p = false)
    (hrest : ∀ r ∈ rest, jsStartsWith (jsTrim r) "Action Input:" = false) :
    (parseAgentResponse text).actionInput = orNone (captureBlock l rest) ∧
    (parseAgentResponse text).actionInput.getD "" = captureBlock l rest ∧
    (rest.takeWhile (fun s => !isCaptureBreak (jsTrim s)) = [] →
      jsTrim (jsDrop (jsTrim l) 13) = "" → captureBlock l rest = "") := by
  have hmain : (parseAgentResponse text).actionInput = orNone (captureBlock l rest) := by
    show orNone (parseLoop text (splitLines text) "" "" "").2.2.1 = orNone (captureBlock l rest)
    rw [hsplit]
    obtain ⟨th2, ac2, ai2, heq⟩ := parseLoop_append text pre (l :: rest) "" "" "" hpre
    rw [heq, parseLoop_actionInput_step text l rest th2 ac2 ai2 hl,
      parseLoop_ai_preserved text rest th2 ac2 (captureBlock l rest) hrest]
  refine ⟨hmain, ?_, ?_⟩
  · rw [hmain]
    by_cases hb : captureBlock l rest = ""
    · unfold orNone
      rw [if_pos hb, hb]
      rfl
    · unfold orNone
      rw [if_neg hb]
      rfl
  · intro h1 h2
    unfold captureBlock
    rw [h1, h2]
    rfl

theorem claim5_witness :
    (parseAgentResponse "Action: a\nAction Input: first\nsecond line\nThought: stop").actionInput =
      orNone (captureBlock "Action Input: first" ["second line", "Thought: stop"]) ∧
    (parseAgentResponse
        "Action: a\nAction Input: first\nsecond line\nThought: stop").actionInput.getD "" =
      captureBlock "Action Input: first" ["second line", "Thought: stop"] ∧
    (["second line", "Thought: stop"].takeWhile (fun s => !isCaptureBreak (jsTrim s)) = [] →
      jsTrim (jsDrop (jsTrim "Action Input: first") 13) = "" →
      captureBlock "Action Input: first" ["second line", "Thought: stop"] = "") :=
  claim5 "Action: a\nAction Input: first\nsecond line\nThought: stop"
    ["Action: a"] "Action Input: first" ["second line", "Thought: stop"]
    (by decide) (by decide) (by decide) (by decide)

/-- Claim C2: with any tool set (including always-failing tools) and a responsive
provider, run reaches termination without raising and totalSteps never exceeds the
step budget; a failing tool invocation becomes a "Tool error:" observation recorded
in the appended Step, and the loop continues. -/
theorem claim2 (avail : List String) (hne : avail ≠ [])
    (completion : String → List Message → Except String String)
    (hp : ∀ sp m, ∃ s, completion sp m = Except.ok s)
    (label goal : String) (tools : List AgentTool) (context : Option String) (budget : Nat) :
    (∃ r, runAgent avail completion label goal tools context budget = Except.ok r ∧
      r.totalSteps ≤ budget) ∧
    (∀ (provider : List Message → Except String String) (i : Nat) (steps : List AgentStep)
        (messages : List Message) (text a e : String) (t : AgentTool),
      provider messages = Except.ok text →
      (parseAgentResponse text).finalAnswer = none →
      (parseAgentResponse text).action = some a →
      tools.find? (fun tl => tl.name == a) = some t →
      t.execute ((parseAgentResponse text).actionInput.getD "") = Except.error e →
      agentIteration tools provider label i steps messages =
        StepOutcome.next (i + 1)
          (steps ++ [⟨(parseAgentResponse text).thought, a,
              (parseAgentResponse text).actionInput.getD "", "Tool error: " ++ e⟩])
          (messages ++ [⟨Role.assistant, text⟩,
              ⟨Role.user, "Observation: " ++ ("Tool error: " ++ e) ++ "\n\nContinue."⟩])) := by
  constructor
  · rw [runAgent_unfold avail completion label goal tools context budget hne]
    exact agentLoop_safe tools (completion (buildAgentSystemPrompt tools)) label budget
      (hp _) budget 0 [] _ (by omega)
  · intro provider i steps messages text a e t hpm hfa ha hfind hexec
    have hrt := runTool_found_error tools a ((parseAgentResponse text).actionInput.getD "") e t
      hfind hexec
    have h := agentIteration_action tools provider label i steps messages text a hpm hfa ha
    rw [hrt] at h
    exact h

theorem claim2_witness :
    (∃ r, runAgent ["anthropic"]
        (fun _ _ => Except.ok "Thought: go\nAction: boom\nAction Input: x") "L" "test goal"
        [boomTool] none 2 = Except.ok r ∧ r.totalSteps ≤ 2) ∧
    (∀ (provider : List Message → Except String String) (i : Nat) (steps : List AgentStep)
        (messages : List Message) (text a e : String) (t : AgentTool),
      provider messages = Except.ok text →
      (parseAgentResponse text).finalAnswer = none →
      (parseAgentResponse text).action = some a →
      [boomTool].find? (fun tl => tl.name == a) = some t →
      t.execute ((parseAgentResponse text).actionInput.getD "") = Except.error e →
      agentIteration [boomTool] provider "L" i steps messages =
        StepOutcome.next (i + 1)
          (steps ++ [⟨(parseAgentResponse text).thought, a,
              (parseAgentResponse text).actionInput.getD "", "Tool error: " ++ e⟩])
          (messages ++ [⟨Role.assistant, text⟩,
              ⟨Role.user, "Observation: " ++ ("Tool error: " ++ e) ++ "\n\nContinue."⟩])) :=
  claim2 ["anthropic"] (by decide) _ (fun sp m => ⟨_, rfl⟩) "L" "test goal" [boomTool] none 2

/-- Claim C3: a run that completes all stepBudget iterations without a final answer
ends with the synthesized fallback summary and totalSteps = stepBudget; with
stepBudget = 0 it terminates immediately with the budget-exhaustion answer and an
empty step trace. -/
theorem claim3 (avail : List String) (hne : avail ≠ [])
    (completion : String → List Message → Except String String)
    (hp : ∀ sp m, ∃ text, completion sp m = Except.ok text ∧
        (parseAgentResponse text).finalAnswer = none)
    (label goal : String) (tools : List AgentTool) (context : Option String) (budget : Nat) :
    (∃ steps2, runAgent avail completion label goal tools context budget =
        Except.ok ⟨steps2, fallbackAnswer steps2, budget, label⟩) ∧
    (∀ (completion2 : String → List Message → Except String String),
      runAgent avail completion2 label goal tools context 0 =
        Except.ok ⟨[], "Agent reached maximum steps without executing tools.", 0, label⟩) := by
  constructor
  · rw [runAgent_unfold avail completion label goal tools context budget hne]
    exact agentLoop_exhaust tools (completion (buildAgentSystemPrompt tools)) label budget
      (hp _) budget 0 [] _
  · intro completion2
    rw [runAgent_unfold avail completion2 label goal tools context 0 hne]
    rfl

theorem claim3_witness :
    (∃ steps2, runAgent ["anthropic"] (fun _ _ => Except.ok "no markers here") "L" "g" [] none 3 =
        Except.ok ⟨steps2, fallbackAnswer steps2, 3, "L"⟩) ∧
    (∀ (completion2 : String → List Message → Except String String),
      runAgent ["anthropic"] completion2 "L" "g" [] none 0 =
        Except.ok ⟨[], "Agent reached maximum steps without executing tools.", 0, "L"⟩) :=
  claim3 ["anthropic"] (by decide) _ (fun sp m => ⟨"no markers here", rfl, by decide⟩)
    "L" "g" [] none 3

/-- Claim C6: an action naming no registered tool yields a Step whose observation is
the descriptive unknown-tool string naming the action and the available tools, and
the run continues to the next iteration rather than terminating. -/
theorem claim6 (tools : List AgentTool) (provider : List Message → Except String String)
    (label : String) (i : Nat) (steps : List AgentStep) (messages : List Message)
    (text a : String)
    (hp : provider messages = Except.ok text)
    (hfa : (parseAgentResponse text).finalAnswer = none)
    (ha : (parseAgentResponse text).action = some a)
    (hmiss : tools.find? (fun tl => tl.name == a) = none) :
    agentIteration tools provider label i steps messages =
      StepOutcome.next (i + 1)
        (steps ++ [⟨(parseAgentResponse text).thought, a,
            (parseAgentResponse text).actionInput.getD "", unknownToolMsg a tools⟩])
        (messages ++ [⟨Role.assistant, text⟩,
            ⟨Role.user, "Observation: " ++ unknownToolMsg a tools ++ "\n\nContinue."⟩]) := by
  have hrt := runTool_missing tools a ((parseAgentResponse text).actionInput.getD "") hmiss
  have h := agentIteration_action tools provider label i steps messages text a hp hfa ha
  rw [hrt] at h
  exact h

theorem claim6_witness :
    agentIteration [listModelsTool] (fun _ => Except.ok "Action: frobnicate") "L" 0 [] [] =
      StepOutcome.next 1
        [⟨"", "frobnicate", "", unknownToolMsg "frobnicate" [listModelsTool]⟩]
        [⟨Role.assistant, "Action: frobnicate"⟩,
         ⟨Role.user, "Observation: " ++ unknownToolMsg "frobnicate" [listModelsTool]
            ++ "\n\nContinue."⟩] ∧
    unknownToolMsg "frobnicate" [listModelsTool] =
      "Unknown tool: frobnicate. Available: list_available_models" :=
  ⟨claim6 [listModelsTool] _ "L" 0 [] [] "Action: frobnicate" "frobnicate" rfl
      (by decide) (by decide) rfl,
    by decide⟩

/-- Claim C7, counterexample: in "Action: a\nFinal Answer: x\nAction: b" two Action
marker lines are present, yet the parser keeps the FIRST action name "a", not the
last one "b": the Final Answer line stops the scan, so the later Action line is
never seen and the kept action name is not the last. -/
theorem claim7_counterexample :
    (splitLines "Action: a\nFinal Answer: x\nAction: b").filter isActionLine =
      ["Action: a", "Action: b"] ∧
    actionName "Action: b" = "b" ∧
    (parseAgentResponse "Action: a\nFinal Answer: x\nAction: b").action = some "a" ∧
    (parseAgentResponse "Action: a\nFinal Answer: x\nAction: b").finalAnswer =
      some "x\nAction: b" := by
  decide

/-- Claim C7, amended: for every raw assistant message containing multiple Action
marker lines and no Final Answer marker line, the parser keeps only the last action
name (overwrite, not accumulate), provided that name is nonempty after trimming;
and the engine invokes at most one tool in that loop iteration — the one named by
the last Action line. -/
theorem claim7_amended (text la : String)
    (hmult : 2 ≤ ((splitLines text).filter isActionLine).length)
    (hlast : ((splitLines text).filter isActionLine).getLast? = some la)
    (hnofa : ∀ l ∈ splitLines text, isFALine l = false)
    (hne : actionName la ≠ "") :
    (parseAgentResponse text).action = some (actionName la) ∧
    (∀ (tools : List AgentTool) (provider : List Message → Except String String)
        (label : String) (i : Nat) (steps : List AgentStep) (messages : List Message),
      provider messages = Except.ok text →
      agentIteration tools provider label i steps messages =
        StepOutcome.next (i + 1)
          (steps ++ [⟨(parseAgentResponse text).thought, actionName la,
              (parseAgentResponse text).actionInput.getD "",
              runTool tools (actionName la) ((parseAgentResponse text).actionInput.getD "")⟩])
          (messages ++ [⟨Role.assistant, text⟩,
              ⟨Role.user, "Observation: "
                ++ runTool tools (actionName la) ((parseAgentResponse text).actionInput.getD "")
                ++ "\n\nContinue."⟩])) := by
  have hac : (parseAgentResponse text).action = some (actionName la) := by
    show orNone (parseLoop text (splitLines text) "" "" "").2.1 = some (actionName la)
    rw [parseLoop_action_getLast text (splitLines text) "" "" "" la hnofa hlast]
    unfold orNone
    rw [if_neg hne]
  have hfa : (parseAgentResponse text).finalAnswer = none := by
    show orNone (parseLoop text (splitLines text) "" "" "").2.2.2 = none
    rw [parseLoop_fa_of_none text (splitLines text) "" "" "" hnofa]
    rfl
  exact ⟨hac, fun tools provider label i steps messages hp =>
    agentIteration_action tools provider label i steps messages text (actionName la) hp hfa hac⟩

theorem claim7_amended_witness :
    (parseAgentResponse "Action: a\nAction: b").action = some (actionName "Action: b") ∧
    (∀ (tools : List AgentTool) (provider : List Message → Except String String)
        (label : String) (i : Nat) (steps : List AgentStep) (messages : List Message),
      provider messages = Except.ok "Action: a\nAction: b" →
      agentIteration tools provider label i steps messages =
        StepOutcome.next (i + 1)
          (steps ++ [⟨(parseAgentResponse "Action: a\nAction: b").thought,
              actionName "Action: b",
              (parseAgentResponse "Action: a\nAction: b").actionInput.getD "",
              runTool tools (actionName "Action: b")
                ((parseAgentResponse "Action: a\nAction: b").actionInput.getD "")⟩])
          (messages ++ [⟨Role.assistant, "Action: a\nAction: b"⟩,
              ⟨Role.user, "Observation: "
                ++ runTool tools (actionName "Action: b")
                    ((parseAgentResponse "Action: a\nAction: b").actionInput.getD "")
                ++ "\n\nContinue."⟩])) :=
  claim7_amended "Action: a\nAction: b" "Action: b" (by decide) (by decide) (by decide) (by decide)

/-- Claim C8, counterexample: with a configured provider whose completion call
throws, run propagates the provider failure — it does throw for a provider
failure, and that failure is not the configuration error. -/
theorem claim8_counterexample :
    runAgent ["anthropic"] (fun _ _ => Except.error "HTTP 500") "L" "g" [] none 1 =
      Except.error "HTTP 500" ∧
    "HTTP 500" ≠ configErrorMsg :=
  ⟨rfl, by decide⟩

/-- Claim C8, amended: run never throws for ordinary tool failures (any tool set,
responsive provider); a completion-provider failure propagates as a run-level
failure; and with no completion provider configured the run is refused up front
with the configuration error, for every provider behaviour and budget, hence
before any completion call and without consuming step budget. -/
theorem claim8_amended (label goal : String) (tools : List AgentTool)
    (context : Option String) (budget : Nat) :
    (∀ (avail : List String) (completion : String → List Message → Except String String),
      avail ≠ [] → (∀ sp m, ∃ s, completion sp m = Except.ok s) →
      ∃ r, runAgent avail completion label goal tools context budget = Except.ok r) ∧
    (∀ (avail : List String) (completion : String → List Message → Except String String)
        (e : String),
      avail ≠ [] → (∀ sp m, completion sp m = Except.error e) → 1 ≤ budget →
      runAgent avail completion label goal tools context budget = Except.error e) ∧
    (∀ (completion : String → List Message → Except String String),
      runAgent [] completion label goal tools context budget = Except.error configErrorMsg) := by
  refine ⟨?_, ?_, ?_⟩
  · intro avail completion hne hp
    rw [runAgent_unfold avail completion label goal tools context budget hne]
    obtain ⟨r, hr, _⟩ := agentLoop_safe tools (completion (buildAgentSystemPrompt tools)) label
      budget (hp _) budget 0 [] _ (by omega)
    exact ⟨r, hr⟩
  · intro avail completion e hne hp hb
    rw [runAgent_unfold avail completion label goal tools context budget hne]
    cases budget with
    | zero => exact absurd hb (by omega)
    | succ n =>
      simp only [agentLoop]
      unfold agentIteration
      rw [hp]
  · intro completion
    rfl

theorem claim8_amended_witness :
    (∃ r, runAgent ["anthropic"] (fun _ _ => Except.ok "Final Answer: ok") "L" "g" [] none 1 =
      Except.ok r) ∧
    runAgent ["anthropic"] (fun _ _ => Except.error "boom") "L" "g" [] none 1 =
      Except.error "boom" ∧
    runAgent [] (fun _ _ => Except.ok "x") "L" "g" [] none 1 = Except.error configErrorMsg := by
  refine ⟨?_, ?_, ?_⟩
  · exact (claim8_amended "L" "g" [] none 1).1 ["anthropic"] _ (by decide) (fun sp m => ⟨_, rfl⟩)
  · exact (claim8_amended "L" "g" [] none 1).2.1 ["anthropic"] _ "boom" (by decide)
      (fun sp m => rfl) (by omega)
  · exact (claim8_amended "L" "g" [] none 1).2.2 _

/-- Claim C9: every loop iteration that completes appends exactly one assistant
message, plus exactly one user message unless the iteration terminates with a
final answer; earlier messages are preserved unchanged (append-only transcript). -/
theorem claim9 (tools : List AgentTool) (provider : List Message → Except String String)
    (label : String) (i : Nat) (steps : List AgentStep) (messages : List Message)
    (text : String)
    (hp : provider messages = Except.ok text) :
    (∃ r, agentIteration tools provider label i steps messages =
        StepOutcome.done (messages ++ [⟨Role.assistant, text⟩]) r) ∨
    (∃ i2 steps2 u, agentIteration tools provider label i steps messages =
        StepOutcome.next i2 steps2
          (messages ++ [⟨Role.assistant, text⟩, ⟨Role.user, u⟩])) := by
  cases hfa : (parseAgentResponse text).finalAnswer with
  | some v =>
    exact Or.inl ⟨_, agentIteration_final tools provider label i steps messages text v hp hfa⟩
  | none =>
    cases ha : (parseAgentResponse text).action with
    | some a =>
      exact Or.inr ⟨_, _, _,
        agentIteration_action tools provider label i steps messages text a hp hfa ha⟩
    | none =>
      exact Or.inr ⟨_, _, _,
        agentIteration_nudge tools provider label i steps messages text hp hfa ha⟩

theorem claim9_witness :
    (∃ r, agentIteration [] (fun _ => Except.ok "hello") "L" 0 [] [] =
        StepOutcome.done [⟨Role.assistant, "hello"⟩] r) ∨
    (∃ i2 steps2 u, agentIteration [] (fun _ => Except.ok "hello") "L" 0 [] [] =
        StepOutcome.next i2 steps2 [⟨Role.assistant, "hello"⟩, ⟨Role.user, u⟩]) :=
  claim9 [] _ "L" 0 [] [] "hello" rfl

end AgentEngine
